import Mathlib

/-!
Verification of the DOM/selection core of the Jodit editor repository.

The DOM is modelled as a pure tree (`DNode`).  An element node carries its
lower-case tag name, its inline-style declarations (the `style` attribute as
an ordered property/value list), a flag telling whether the selection manager
considers it a marker element (`selection.isMarker`, an external collaborator
abstracted to a boolean), and its ordered children.  A text node carries its
`nodeValue`, which may be `null` (`Option.none`).

Mutating DOM operations are modelled functionally: an operation on a node
inside a tree takes the tree together with the node's position (a path of
child indices, or a zipper) and returns the new tree.  A node has a parent
exactly when its path is nonempty / its zipper has at least one frame.
-/

inductive DNode where
  | elem (tag : String) (styles : List (String × String)) (marker : Bool)
      (children : List DNode)
  | text (val : Option String)
deriving Repr

/-- ASCII lower-casing of a character (`String.prototype.toLowerCase` on the
tag/value strings the source compares). -/
def lowerChar (c : Char) : Char :=
  if 'A' ≤ c && c ≤ 'Z' then Char.ofNat (c.toNat + 32) else c

/-- ASCII lower-casing of a string (`s.toLowerCase()`). -/
def lowerStr (s : String) : String :=
  ⟨s.toList.map lowerChar⟩

/-- Children of a node; a text node has none. -/
def childrenOf : DNode → List DNode
  | .elem _ _ _ cs => cs
  | .text _ => []

/-- Replace the children list of an element node (identity on text nodes). -/
def withChildren : DNode → List DNode → DNode
  | .elem t s m _, cs => .elem t s m cs
  | .text v, _ => .text v

/-- Model of `node.nodeName.toLowerCase()`: the lower-cased tag for elements,
`"#text"` for text nodes. -/
def nodeNameLower : DNode → String
  | .elem t _ _ _ => lowerStr t
  | .text _ => "#text"

/-- Model of `Dom.isText`. -/
def Dom.isTextB : DNode → Bool
  | .text _ => true
  | .elem _ _ _ _ => false

/-- Model of `Dom.isElement`. -/
def Dom.isElementB : DNode → Bool
  | .elem _ _ _ _ => true
  | .text _ => false

/-- Model of `Dom.isTag(node, tagName)`: an element whose lower-cased tag equals the
given (lower-case) tag name. -/
def Dom.isTagB (n : DNode) (tagName : String) : Bool :=
  Dom.isElementB n && nodeNameLower n == tagName

/-- The selection manager's `isMarker` predicate (external collaborator),
abstracted to the marker flag carried by element nodes. -/
def isMarkerNode : DNode → Bool
  | .elem _ _ m _ => m
  | .text _ => false

/-- Jodit's `INVISIBLE_SPACE` constant (`﻿`), matched by
`INVISIBLE_SPACE_REG_EXP`. -/
def invisibleSpace : Char := '﻿'

/-- Strip every invisible-space character
(`nodeValue.replace(INVISIBLE_SPACE_REG_EXP, '')`). -/
def stripInvisible (s : String) : String :=
  ⟨s.toList.filter (fun c => c ≠ invisibleSpace)⟩

/-- Modelled from the spec: the `trim` helper lives in `core/helpers`, which is
not under `src/`; per §4.1 it removes ordinary whitespace and the invisible
marker characters from both ends of a string. -/
def jtrim (s : String) : String :=
  let ws : Char → Bool := fun c => c.isWhitespace || c = invisibleSpace
  ⟨((s.toList.dropWhile ws).reverse.dropWhile ws).reverse⟩

/-- Test `!trim(s).length`: the string trims to length zero. -/
def trimEmpty (s : String) : Bool :=
  (jtrim s).isEmpty

/-- Model of `Dom.isEmptyTextNode`: a text node whose value is `null` or whose value,
after stripping invisible characters, has zero length. -/
def Dom.isEmptyTextNode : DNode → Bool
  | .text none => true
  | .text (some s) => (stripInvisible s).isEmpty
  | .elem _ _ _ _ => false

/-- Modelled from the spec: `consts.IS_BLOCK` lives in `core/constants`, which
is not under `src/`; per §4.1 it matches a fixed set of block-level tag names
(div, p, table, li, h1–h6, blockquote, ul/ol, etc.), case-insensitively. -/
def blockTags : List String :=
  ["div", "p", "table", "tbody", "thead", "tfoot", "tr", "td", "th",
   "li", "ul", "ol", "h1", "h2", "h3", "h4", "h5", "h6", "blockquote",
   "pre", "article", "section", "header", "footer", "main", "aside",
   "figure", "figcaption", "dl", "dt", "dd", "form"]

/-- Model of `Dom.isBlock(node, win)`: the node is an element whose tag name matches
`IS_BLOCK`.  The `win` realm parameter only disambiguates cross-iframe
constructors and is dropped: the model has a single realm. -/
def Dom.isBlockB : DNode → Bool
  | .elem t _ _ _ => blockTags.contains (lowerStr t)
  | .text _ => false

/-!
### `Dom.each` (src/src/core/dom.ts, lines 158–182)

```
static each(elm, callback): boolean {
  let node = elm.firstChild;
  if (node) {
    while (node) {
      const next = Dom.next(node, Boolean, elm);
      if (callback(node) === false) return false;
      // inside callback - node could be removed
      if (node.parentNode && !Dom.each(node, callback)) return false;
      node = next;
    }
  }
  return true;
}
```

`Dom.next(node, Boolean, elm)` returns the literal next sibling of `node`
inside `elm` (the `Boolean` condition accepts the first non-null candidate,
which is the next sibling, and the ascent stops at the root `elm`), and it is
computed BEFORE the callback runs.  Callbacks are modelled as pure functions
returning `(result, removesSelf)`: `result = false` models `return false`
(abort), and `removesSelf = true` models the callback detaching the visited
node from the tree as a side effect, after which `node.parentNode` is null so
the recursive descent is skipped, while the iteration continues with the
precomputed `next` — in the model, with the remainder of the original child
list, which removal of the visited node does not change.
-/

mutual
def Dom.each (cb : DNode → Bool × Bool) : DNode → Bool
  | .text _ => true
  | .elem _ _ _ cs => Dom.eachList cb cs

def Dom.eachList (cb : DNode → Bool × Bool) : List DNode → Bool
  | [] => true
  | n :: rest =>
    let p := cb n
    if p.1 = false then false
    else if p.2 then Dom.eachList cb rest
    else if Dom.each cb n then Dom.eachList cb rest else false
end

/-!
`Dom.eachVisit` is an instrumented variant of `Dom.each` that also returns
the list of nodes on which the callback was invoked, in invocation order.
It is used to state the traversal properties of `Dom.each`;
`Dom.each_eq_visit` proves it computes the same boolean.
-/
mutual
def Dom.eachVisit (cb : DNode → Bool × Bool) : DNode → Bool × List DNode
  | .text _ => (true, [])
  | .elem _ _ _ cs => Dom.eachVisitList cb cs

def Dom.eachVisitList (cb : DNode → Bool × Bool) : List DNode → Bool × List DNode
  | [] => (true, [])
  | n :: rest =>
    let p := cb n
    if p.1 = false then (false, [n])
    else if p.2 then
      let r := Dom.eachVisitList cb rest
      (r.1, n :: r.2)
    else
      let inner := Dom.eachVisit cb n
      if inner.1 then
        let r := Dom.eachVisitList cb rest
        (r.1, n :: inner.2 ++ r.2)
      else (false, n :: inner.2)
end

/-!
### `Dom.isEmpty` (src/src/core/dom.ts, lines 252–278)

The default exception set is `/^(img|svg|canvas|input|textarea|form)$/`.
-/

/-- The default `condNoEmptyElement` test of `Dom.isEmpty`. -/
def defaultNoEmpty (tag : String) : Bool :=
  ["img", "svg", "canvas", "input", "textarea", "form"].contains tag

/-- The visitor `Dom.isEmpty` passes to `Dom.each`: aborts (returns `false`)
at a non-whitespace text node or at an element of the exception set; it never
removes nodes. -/
def Dom.isEmptyVisitor (cond : String → Bool) (elm : DNode) : Bool × Bool :=
  (!((Dom.isTextB elm && (match elm with
        | .text (some s) => !trimEmpty s
        | _ => false))
     || (Dom.isElementB elm && cond (nodeNameLower elm))), false)

/-- Model of `Dom.isEmpty(node, condNoEmptyElement)`. -/
def Dom.isEmpty (n : DNode) (cond : String → Bool := defaultNoEmpty) : Bool :=
  match n with
  | .text v =>
    match v with
    | none => true
    | some s => trimEmpty s
  | .elem tag _ _ _ =>
    !cond (lowerStr tag) && Dom.each (Dom.isEmptyVisitor cond) n

/-!
### `Dom.unwrap` (src/src/core/dom.ts, lines 131–141)

```
static unwrap(node): void {
  const parent = node.parentNode;
  if (parent) {
    while (node.firstChild) { parent.insertBefore(node.firstChild, node); }
    Dom.safeRemove(node);
  }
}
```

The node is addressed by a path of child indices from the root of its tree;
an empty path means the node is the root and has no parent.  The loop moves
each child in turn to just before `node`, preserving their order, and then
removes `node`; on the child list of the parent this is the splice
`take i ++ children(node) ++ drop (i+1)`.
-/

/-- Apply `f` to the element at index `i` of a list (identity when out of
range). -/
def modifyIdx (f : DNode → DNode) : List DNode → Nat → List DNode
  | [], _ => []
  | c :: cs, 0 => f c :: cs
  | c :: cs, n + 1 => c :: modifyIdx f cs n

/-- Splice the children of the `i`-th child into the list in its place
(identity when `i` is out of range, which cannot happen for a real node). -/
def spliceIdx (cs : List DNode) (i : Nat) : List DNode :=
  match cs[i]? with
  | none => cs
  | some c => cs.take i ++ childrenOf c ++ cs.drop (i + 1)

/-- Model of `Dom.unwrap` on the node addressed by `path` inside `root`. -/
def Dom.unwrap (root : DNode) : List Nat → DNode
  | [] => root
  | [i] => withChildren root (spliceIdx (childrenOf root) i)
  | i :: is => withChildren root (modifyIdx (fun c => Dom.unwrap c is) (childrenOf root) i)

/-!
### `Dom.wrap` (src/src/core/dom.ts, lines 105–125)

```
static wrap(current, tag, editor) {
  const selInfo = editor.selection.save();
  const wrapper = isString(tag) ? editor.createInside.element(tag) : tag;
  if (!current.parentNode) { return null; }
  current.parentNode.insertBefore(wrapper, current);
  wrapper.appendChild(current);
  editor.selection.restore(selInfo);
  return wrapper;
}
```

The selection manager is an external collaborator; its `save`/`restore` calls
are recorded as events, each tagged with the tree as it stands when the call
is made, so "saves before mutating, restores after" is visible in the output.
Note the source saves the selection and fabricates the wrapper *before*
checking for a parent: on the detached branch the function returns `null`
without inserting the wrapper anywhere and without restoring the saved
selection.
-/

inductive SelEvent where
  | save (tree : DNode)
  | restore (tree : DNode)
deriving Repr

structure WrapOut where
  result : Option DNode
  tree : DNode
  events : List SelEvent
deriving Repr

/-- Read the node at a path. -/
def getAt : DNode → List Nat → Option DNode
  | n, [] => some n
  | n, i :: is =>
    match (childrenOf n)[i]? with
    | none => none
    | some c => getAt c is

/-- Replace the node at a (nonempty, valid) path by `w`. -/
def setAt (w : DNode) : DNode → List Nat → DNode
  | _, [] => w
  | root, i :: is => withChildren root (modifyIdx (fun c => setAt w c is) (childrenOf root) i)

/-- Model of `Dom.wrap(current, tag, editor)`: `current` is addressed by `path` inside
`root`; `tagOrElm` is either a tag name (the element factory fabricates a
fresh wrapper) or a supplied wrapper element.  Inserting the wrapper
immediately before `current` and then moving `current` inside it replaces
`current`, at its former position, by the wrapper containing it. -/
def Dom.wrap (root : DNode) (path : List Nat) (tagOrElm : String ⊕ DNode) : WrapOut :=
  let wrapper : DNode :=
    match tagOrElm with
    | .inl tag => .elem tag [] false []
    | .inr el => el
  match path with
  | [] =>
    -- current.parentNode is null: return null; no insertion, no restore
    { result := none, tree := root, events := [.save root] }
  | _ :: _ =>
    match getAt root path with
    | none =>
      -- unreachable for a node that is really in the tree
      { result := none, tree := root, events := [.save root] }
    | some cur =>
      let w := withChildren wrapper (childrenOf wrapper ++ [cur])
      let tree := setAt w root path
      { result := some w, tree := tree, events := [.save root, .restore tree] }

/-!
### `View.getInstance`

Two copies of `View` are in the sources.  `src/unnamed/part_001` (lines
99–112) guards with `if (!isFunction(module)) throw error('Need real module
name')`; `src/unnamed/part_002` (lines 101–116) has the inverted guard
`if (isFunction(module)) throw error('Need real module name')`, after which it
evaluates `new module(...)` on a value that is *not* a function — in
JavaScript a `TypeError`.  The module registry is modelled as a partial map
from names to an `isFunction` flag; instances are tagged with the module name
that created them.
-/

structure Inst where
  modName : String
deriving Repr, DecidableEq

/-- Model of `isFunction(modules[name])`; an absent name gives `undefined`, which is
not a function. -/
def isFunctionOpt : Option Bool → Bool
  | some b => b
  | none => false

/-- Model of `View.getInstance` as written in part_001: throw iff the module registry
entry is not a constructor function; otherwise create the instance on first
request and cache it, returning the cached instance thereafter. -/
def View.getInstanceV1 (registry : String → Option Bool)
    (cache : List (String × Inst)) (name : String) :
    Except String Inst × List (String × Inst) :=
  let module := registry name
  if !isFunctionOpt module then (.error "Need real module name", cache)
  else
    match cache.lookup name with
    | none =>
      let inst : Inst := ⟨name⟩
      (.ok inst, (name, inst) :: cache)
    | some inst => (.ok inst, cache)

/-- Model of `View.getInstance` as written in part_002: the guard is inverted, so a
registered constructor function raises `Need real module name`, and a
non-function value reaches `new module(...)`, which raises a `TypeError`. -/
def View.getInstanceV2 (registry : String → Option Bool)
    (cache : List (String × Inst)) (name : String) :
    Except String Inst × List (String × Inst) :=
  let module := registry name
  if isFunctionOpt module then (.error "Need real module name", cache)
  else
    match cache.lookup name with
    | none =>
      -- `new module(...)` where `module` is not a function: TypeError
      (.error "module is not a constructor", cache)
    | some inst => (.ok inst, cache)


/-!
## Helper lemmas about `Dom.each`
-/

theorem bool_eq_true_of_ne_false {b : Bool} (h : ¬b = false) : b = true := by
  cases b
  · exact absurd rfl h
  · rfl

/-!
`Dom.each` computes the same boolean as its instrumented variant.
-/
mutual
theorem Dom.each_eq_visit (cb : DNode → Bool × Bool) :
    (n : DNode) → Dom.each cb n = (Dom.eachVisit cb n).1
  | .text _ => rfl
  | .elem t s m cs => by
    rw [Dom.each, Dom.eachVisit]
    exact Dom.eachList_eq_visit cb cs

theorem Dom.eachList_eq_visit (cb : DNode → Bool × Bool) :
    (l : List DNode) → Dom.eachList cb l = (Dom.eachVisitList cb l).1
  | [] => rfl
  | n :: rest => by
    rw [Dom.eachList, Dom.eachVisitList]
    by_cases h1 : (cb n).1 = false
    · rw [if_pos h1, if_pos h1]
    · rw [if_neg h1, if_neg h1]
      by_cases h2 : (cb n).2
      · rw [if_pos h2, if_pos h2]
        exact Dom.eachList_eq_visit cb rest
      · rw [if_neg h2, if_neg h2]
        rw [Dom.each_eq_visit cb n]
        by_cases h3 : (Dom.eachVisit cb n).1
        · rw [if_pos h3, if_pos h3]
          exact Dom.eachList_eq_visit cb rest
        · rw [if_neg h3, if_neg (by simpa using h3)]
end

/-!
The boolean result of the traversal is the conjunction of the callback
results over exactly the visited nodes.
-/
mutual
theorem Dom.eachVisit_all (cb : DNode → Bool × Bool) :
    (n : DNode) →
      (Dom.eachVisit cb n).1 = (Dom.eachVisit cb n).2.all (fun x => (cb x).1)
  | .text _ => rfl
  | .elem t s m cs => by
    rw [Dom.eachVisit]
    exact Dom.eachVisitList_all cb cs

theorem Dom.eachVisitList_all (cb : DNode → Bool × Bool) :
    (l : List DNode) →
      (Dom.eachVisitList cb l).1 = (Dom.eachVisitList cb l).2.all (fun x => (cb x).1)
  | [] => rfl
  | n :: rest => by
    rw [Dom.eachVisitList]
    by_cases h1 : (cb n).1 = false
    · rw [if_pos h1]
      simp [h1]
    · have h1' := bool_eq_true_of_ne_false h1
      rw [if_neg h1]
      by_cases h2 : (cb n).2
      · rw [if_pos h2]
        have ih := Dom.eachVisitList_all cb rest
        simp only [List.all_cons, h1', Bool.true_and]
        exact ih
      · rw [if_neg h2]
        by_cases h3 : (Dom.eachVisit cb n).1
        · rw [if_pos h3]
          have ihn := Dom.eachVisit_all cb n
          have ih := Dom.eachVisitList_all cb rest
          have hall : (Dom.eachVisit cb n).2.all (fun x => (cb x).1) = true :=
            ihn ▸ h3
          simp only [List.all_cons, List.all_append, h1', Bool.true_and, hall]
          exact ih
        · rw [if_neg h3]
          have h3' : (Dom.eachVisit cb n).1 = false := by
            simpa using h3
          have ihn := Dom.eachVisit_all cb n
          have hall : (Dom.eachVisit cb n).2.all (fun x => (cb x).1) = false :=
            ihn ▸ h3'
          simp only [List.all_cons, h1', Bool.true_and, hall]
end

/-- When no callback aborts, the original child list is a sublist of the
visited nodes: removing a visited node never hides its former siblings from
the traversal. -/
theorem Dom.eachVisitList_sublist (cb : DNode → Bool × Bool) :
    (l : List DNode) → (Dom.eachVisitList cb l).1 = true →
      List.Sublist l (Dom.eachVisitList cb l).2
  | [], _ => List.Sublist.refl []
  | n :: rest, h => by
    rw [Dom.eachVisitList] at h ⊢
    by_cases h1 : (cb n).1 = false
    · rw [if_pos h1] at h
      exact absurd h (by simp)
    · rw [if_neg h1] at h ⊢
      by_cases h2 : (cb n).2
      · rw [if_pos h2] at h ⊢
        exact List.Sublist.cons₂ n (Dom.eachVisitList_sublist cb rest h)
      · rw [if_neg h2] at h ⊢
        by_cases h3 : (Dom.eachVisit cb n).1
        · rw [if_pos h3] at h ⊢
          refine List.Sublist.cons₂ n ?_
          exact (Dom.eachVisitList_sublist cb rest h).trans
            (List.sublist_append_right _ _)
        · rw [if_neg h3] at h
          exact absurd h (by simp)

/-!
When the traversal aborts, the visited list ends at the first node whose
callback returned `false`: every earlier visited node's callback returned
`true`, and nothing was visited afterwards.
-/
mutual
theorem Dom.eachVisit_abort (cb : DNode → Bool × Bool) :
    (n : DNode) → (Dom.eachVisit cb n).1 = false →
      ∃ pre lst, (Dom.eachVisit cb n).2 = pre ++ [lst] ∧ (cb lst).1 = false ∧
        ∀ m ∈ pre, (cb m).1 = true
  | .text _, h => by
    rw [Dom.eachVisit] at h
    exact absurd h (by simp)
  | .elem t s m cs, h => by
    rw [Dom.eachVisit] at h ⊢
    exact Dom.eachVisitList_abort cb cs h

theorem Dom.eachVisitList_abort (cb : DNode → Bool × Bool) :
    (l : List DNode) → (Dom.eachVisitList cb l).1 = false →
      ∃ pre lst, (Dom.eachVisitList cb l).2 = pre ++ [lst] ∧ (cb lst).1 = false ∧
        ∀ m ∈ pre, (cb m).1 = true
  | [], h => by
    rw [Dom.eachVisitList] at h
    exact absurd h (by simp)
  | n :: rest, h => by
    rw [Dom.eachVisitList] at h ⊢
    by_cases h1 : (cb n).1 = false
    · rw [if_pos h1]
      exact ⟨[], n, by simp, h1, by simp⟩
    · have h1' := bool_eq_true_of_ne_false h1
      rw [if_neg h1] at h ⊢
      by_cases h2 : (cb n).2
      · rw [if_pos h2] at h ⊢
        obtain ⟨pre, lst, he, hf, hp⟩ := Dom.eachVisitList_abort cb rest h
        refine ⟨n :: pre, lst, by simp [he], hf, ?_⟩
        intro x hx
        rcases List.mem_cons.mp hx with hx | hx
        · exact hx ▸ h1'
        · exact hp x hx
      · rw [if_neg h2] at h ⊢
        by_cases h3 : (Dom.eachVisit cb n).1
        · rw [if_pos h3] at h ⊢
          obtain ⟨pre, lst, he, hf, hp⟩ := Dom.eachVisitList_abort cb rest h
          refine ⟨(n :: (Dom.eachVisit cb n).2) ++ pre, lst, ?_, hf, ?_⟩
          · simp [he]
          · intro x hx
            rcases List.mem_append.mp hx with hx | hx
            · rcases List.mem_cons.mp hx with hx | hx
              · exact hx ▸ h1'
              · have hall : (Dom.eachVisit cb n).2.all (fun y => (cb y).1) = true :=
                  (Dom.eachVisit_all cb n) ▸ h3
                exact List.all_eq_true.mp hall x hx
            · exact hp x hx
        · rw [if_neg h3]
          have h3' : (Dom.eachVisit cb n).1 = false := by simpa using h3
          obtain ⟨pre, lst, he, hf, hp⟩ := Dom.eachVisit_abort cb n h3'
          refine ⟨n :: pre, lst, by simp [he], hf, ?_⟩
          intro x hx
          rcases List.mem_cons.mp hx with hx | hx
          · exact hx ▸ h1'
          · exact hp x hx
end

/-- A sample callback for the `Dom.each` witness: it removes every text node
it visits and never aborts. -/
def removeTextsCb (n : DNode) : Bool × Bool :=
  (true, Dom.isTextB n)

/-- A sample tree for the `Dom.each` witness. -/
def eachSampleTree : DNode :=
  .elem "div" [] false
    [.text (some "a"), .elem "span" [] false [.text (some "b")], .text (some "c")]

/-- C5: `Dom.each` computes each node's successor before invoking the
callback, so a callback that removes the currently-visited node never breaks
the traversal: the traversal still visits every sibling that existed before
the removal (the original child list is a sublist of the visited nodes
whenever no callback aborts — in particular for callbacks that remove nodes),
it aborts and returns `false` as soon as some callback invocation returns
`false` (the visited list then ends at the first failing node), and it
returns `true` otherwise (exactly when every invoked callback returned
`true`).  In the model the traversal is a total function, so node removal can
never raise an exception. -/
theorem Dom.each_removal_safe (cb : DNode → Bool × Bool) (elm : DNode) :
    (Dom.each cb elm = (Dom.eachVisit cb elm).2.all (fun x => (cb x).1))
    ∧ (Dom.each cb elm = true → List.Sublist (childrenOf elm) (Dom.eachVisit cb elm).2)
    ∧ (Dom.each cb elm = false →
        ∃ pre lst, (Dom.eachVisit cb elm).2 = pre ++ [lst] ∧ (cb lst).1 = false ∧
          ∀ m ∈ pre, (cb m).1 = true) := by
  refine ⟨(Dom.each_eq_visit cb elm).trans (Dom.eachVisit_all cb elm), ?_, ?_⟩
  · intro h
    rw [Dom.each_eq_visit cb elm] at h
    cases elm with
    | text v => simp [childrenOf]
    | elem t s m cs =>
      rw [Dom.eachVisit] at h ⊢
      exact Dom.eachVisitList_sublist cb cs h
  · intro h
    rw [Dom.each_eq_visit cb elm] at h
    exact Dom.eachVisit_abort cb elm h

/-- Witness for C5 at a concrete input: the callback removes every text node
it visits; the traversal still completes, and the three original children
(all of which existed before the removals) are all visited, in order. -/
theorem Dom.each_removal_safe_witness :
    List.Sublist (childrenOf eachSampleTree) (Dom.eachVisit removeTextsCb eachSampleTree).2 :=
  (Dom.each_removal_safe removeTextsCb eachSampleTree).2.1 rfl

/-- C6: with the default exception set, an element containing only a single
`<img>` child is not empty; an element whose children are only
whitespace-only text nodes is empty; an element containing an empty nested
`<span>` and non-whitespace text is not empty; and a text node is empty
exactly when its value is `null` or trims to length zero. -/
theorem Dom.isEmpty_spec :
    Dom.isEmpty (.elem "div" [] false [.elem "img" [] false []]) = false
    ∧ Dom.isEmpty (.elem "div" [] false [.text (some " "), .text (some "  ")]) = true
    ∧ Dom.isEmpty (.elem "div" [] false [.elem "span" [] false [], .text (some "x")]) = false
    ∧ ∀ v : Option String,
        (Dom.isEmpty (.text v) = true ↔ v = none ∨ (jtrim (v.getD "")).length = 0) := by
  refine ⟨rfl, rfl, rfl, ?_⟩
  intro v
  cases v with
  | none => simp [Dom.isEmpty]
  | some s =>
    simp only [Dom.isEmpty, trimEmpty, Option.getD, String.isEmpty_iff]
    constructor
    · intro h
      right
      simp [h]
    · rintro (h | h)
      · exact absurd h (by simp)
      · cases hj : jtrim s with
        | mk l =>
          rw [hj] at h
          simp only [String.length] at h
          rw [List.length_eq_zero] at h
          simp [hj, h]

/-!
## Helper lemmas about list surgery at an index
-/

theorem modifyIdx_append (f : DNode → DNode) (pre : List DNode) (c : DNode)
    (post : List DNode) :
    modifyIdx f (pre ++ c :: post) pre.length = pre ++ f c :: post := by
  induction pre with
  | nil => rfl
  | cons a pre ih =>
    show a :: modifyIdx f (pre ++ c :: post) pre.length = a :: (pre ++ f c :: post)
    rw [ih]

theorem getElem?_append_cons (pre : List DNode) (c : DNode) (post : List DNode) :
    (pre ++ c :: post)[pre.length]? = some c := by
  induction pre with
  | nil => simp
  | cons a pre ih => simpa using ih

theorem spliceIdx_append (pre : List DNode) (c : DNode) (post : List DNode) :
    spliceIdx (pre ++ c :: post) pre.length = pre ++ childrenOf c ++ post := by
  rw [spliceIdx, getElem?_append_cons]
  show (pre ++ c :: post).take pre.length ++ childrenOf c ++
      (pre ++ c :: post).drop (pre.length + 1) = pre ++ childrenOf c ++ post
  have ht : (pre ++ c :: post).take pre.length = pre :=
    List.take_left pre (c :: post)
  have hd : (pre ++ c :: post).drop (pre.length + 1) = post := by
    have h1 : pre ++ c :: post = (pre ++ [c]) ++ post := by simp
    have h2 : (pre ++ [c]).length = pre.length + 1 := by simp
    rw [h1, ← h2, List.drop_left]
  rw [ht, hd]

/-- C7: for every node with a parent, `Dom.unwrap` removes the node from the
tree and splices all of its children into the parent at the node's former
position in their original order (shown for a node at any position
`pre.length` of its parent's child list); on the concrete tree
`<div><span>a<b>b</b></span></div>` unwrapping the inner `<span>` yields
`<div>a<b>b</b></div>`; and for a node with no parent (the empty path) it
is a no-op. -/
theorem Dom.unwrap_spec :
    (∀ (t : String) (s : List (String × String)) (m : Bool)
        (pre post : List DNode) (c : DNode),
      Dom.unwrap (.elem t s m (pre ++ c :: post)) [pre.length] =
        .elem t s m (pre ++ childrenOf c ++ post))
    ∧ Dom.unwrap
        (.elem "div" [] false
          [.elem "span" [] false
            [.text (some "a"), .elem "b" [] false [.text (some "b")]]]) [0] =
        .elem "div" [] false
          [.text (some "a"), .elem "b" [] false [.text (some "b")]]
    ∧ ∀ root : DNode, Dom.unwrap root [] = root := by
  refine ⟨?_, rfl, fun root => rfl⟩
  intro t s m pre post c
  rw [Dom.unwrap, childrenOf, withChildren, spliceIdx_append]

/-- C8: `Dom.wrap` saves the selection first; when `current` has a parent it
inserts the fabricated wrapper immediately before `current` (i.e. at
`current`'s former position, shown here at any position `pre.length` of the
parent's child list), moves `current` inside the wrapper, restores the saved
selection after the mutation (the `save` event carries the unmutated tree and
the `restore` event the mutated one), and returns the wrapper; when `current`
has no parent it returns `null`. -/
theorem Dom.wrap_spec :
    (∀ (t : String) (s : List (String × String)) (m : Bool)
        (pre post : List DNode) (cur : DNode) (tag : String),
      Dom.wrap (.elem t s m (pre ++ cur :: post)) [pre.length] (.inl tag) =
        { result := some (.elem tag [] false [cur]),
          tree := .elem t s m (pre ++ (DNode.elem tag [] false [cur]) :: post),
          events := [.save (.elem t s m (pre ++ cur :: post)),
                     .restore (.elem t s m (pre ++ (DNode.elem tag [] false [cur]) :: post))] })
    ∧ ∀ (root : DNode) (tagOrElm : String ⊕ DNode),
        (Dom.wrap root [] tagOrElm).result = none := by
  refine ⟨?_, fun root tagOrElm => rfl⟩
  intro t s m pre post cur tag
  have hget : getAt (.elem t s m (pre ++ cur :: post)) [pre.length] = some cur := by
    rw [getAt, childrenOf, getElem?_append_cons]
    rfl
  have hset : setAt (DNode.elem tag [] false [cur])
      (.elem t s m (pre ++ cur :: post)) [pre.length] =
      .elem t s m (pre ++ (DNode.elem tag [] false [cur]) :: post) := by
    rw [setAt, childrenOf, withChildren]
    exact congrArg (DNode.elem t s m) (modifyIdx_append _ pre cur post)
  simp only [Dom.wrap, hget, childrenOf, withChildren, List.nil_append, hset]

/-- C10: calling `Dom.wrap` on a node with no parent (the root, whose path is
empty) returns `null` with the tree left completely unchanged — the
fabricated wrapper is never inserted anywhere — and the selection saved at
entry is never restored on this early-return branch: the event log holds the
`save` alone. -/
theorem Dom.wrap_detached_spec (root : DNode) (tagOrElm : String ⊕ DNode) :
    Dom.wrap root [] tagOrElm =
      { result := none, tree := root, events := [.save root] } := rfl

/-- A sample module registry: `ProgressBar` is registered and is a
constructor function; no other name resolves. -/
def regSample : String → Option Bool :=
  fun n => if n = "ProgressBar" then some true else none

/-- C9 (code bug): requesting a registered constructor module must return an
instance without raising, and `getInstance` must raise exactly for names that
do not resolve to a constructor.  The part_001 `View.getInstance` behaves
that way — its error is raised iff the registry entry is not a function, the
first request creates and caches the instance and the second request returns
the cached instance unchanged — but the part_002 copy inverts the guard and
raises `Need real module name` precisely on a registered constructor
function. -/
theorem View.getInstance_inverted_guard_bug :
    (∀ (registry : String → Option Bool) (cache : List (String × Inst)) (name : String),
      ((View.getInstanceV1 registry cache name).1 = .error "Need real module name"
        ↔ isFunctionOpt (registry name) = false))
    ∧ (View.getInstanceV1 regSample [] "ProgressBar").1 = .ok ⟨"ProgressBar"⟩
    ∧ (View.getInstanceV1 regSample
        (View.getInstanceV1 regSample [] "ProgressBar").2 "ProgressBar" =
          ((View.getInstanceV1 regSample [] "ProgressBar").1,
           (View.getInstanceV1 regSample [] "ProgressBar").2))
    ∧ (View.getInstanceV2 regSample [] "ProgressBar").1 =
        .error "Need real module name" := by
  refine ⟨?_, rfl, rfl, rfl⟩
  intro registry cache name
  rw [View.getInstanceV1]
  by_cases h : isFunctionOpt (registry name)
  · simp only [h, Bool.not_true, Bool.false_eq_true, if_false]
    constructor
    · intro hc
      cases hl : (cache.lookup name) with
      | none => rw [hl] at hc; exact absurd hc (by simp)
      | some inst => rw [hl] at hc; exact absurd hc (by simp)
    · intro hc
      exact absurd hc (by simp)
  · have h' : isFunctionOpt (registry name) = false := by simpa using h
    simp [h']

/-!
## The Style Applicator (`ApplyStyle`, src/unnamed/part_000)

The applicator works on one selected fragment (`font`) at a time.  A fragment
is modelled as a zipper into the selection area's tree: the focused node plus
a stack of frames, one per ancestor, each frame holding the ancestor's tag,
inline styles, marker flag and the focused child's preceding siblings
(nearest first) and following siblings (document order).  An empty frame
stack means the focus is the selection area itself; the area and
`jodit.editor` are the same element.

External collaborators are collected in `Env`:
* `cssGet` is the browser's computed-style reader backing the `css(elm, key)`
  getter of `core/helpers` (not under `src/`); it is an abstract function of
  the element (with its current inline styles) and the property name,
* `normalizeCssValue` is the value-normalisation helper (not under `src/`),
* `wrapUnwrapped` abstracts `ApplyStyle.wrapUnwrappedText`, whose effect is
  produced by the browser's live `Range#extractContents`/`insertNode` on
  ranges spanning arbitrary sibling runs; it returns the location of the
  synthesized wrapper.

The `css(elm, rule, value)` setter is modelled on the inline-style list
(`cssSet`/`cssRemove`), and `attr(elm, 'style')` is falsy exactly when that
list is empty.
-/

/-- The `Style` descriptor (`core/selection/style/style.ts` is not under `src/`;
the fields are the ones `ApplyStyle` reads: `element`, `defaultTag`,
`elementIsBlock` and `options.style`).  Modelled from the spec: "a target
element tag, a default/fallback tag, whether the style produces a block-level
wrapper, and an optional property map". -/
structure JStyle where
  element : String
  defaultTag : String
  elementIsBlock : Bool
  rules : Option (List (String × String))

/-- One ancestor level of a fragment location: the ancestor element's data
and the focused child's siblings on each side (`before` nearest-first,
`after` in document order). -/
structure Frame where
  tag : String
  styles : List (String × String)
  marker : Bool
  before : List DNode
  after : List DNode

/-- A fragment location: the focused node and its ancestor chain up to the
selection area (innermost frame first). -/
structure Loc where
  focus : DNode
  frames : List Frame

/-- Rebuild the parent element of `ns` from its frame. -/
def plugFrame (ns : List DNode) (f : Frame) : DNode :=
  .elem f.tag f.styles f.marker (f.before.reverse ++ ns ++ f.after)

/-- Rebuild the top-level node list from a node list sitting at a location's
position. -/
def plugAll (ns : List DNode) : List Frame → List DNode
  | [] => ns
  | f :: fs => plugAll [plugFrame ns f] fs

/-- Rebuild the area tree from a node list at a location's position.  For the
locations the applicator visits the outcome is a single node; the fragment
fallback keeps the function total. -/
def plugTree (ns : List DNode) (fs : List Frame) : DNode :=
  match plugAll ns fs with
  | [n] => n
  | l => .elem "#fragment" [] false l

/-- Rebuild the area tree from a location. -/
def plugLoc (loc : Loc) : DNode :=
  plugTree [loc.focus] loc.frames

/-!
`textContent` of a node: the concatenation of all text values below it.
-/
mutual
def textContent : DNode → String
  | .text v => v.getD ""
  | .elem _ _ _ cs => textContentL cs

def textContentL : List DNode → String
  | [] => ""
  | c :: cs => textContent c ++ textContentL cs
end

/-!
### `Dom.find`-based sibling searches (src/src/core/dom.ts, lines 477–522)

`Dom.next(node, cond, root)` / `Dom.prev(node, cond, root)` call `Dom.find`,
whose loop steps to the next (resp. previous) sibling, tests it, and — when
the test fails and the sibling has a first (resp. last) child — recurses into
the sibling with `recurse = true`, which tests the recursion's start node and
then walks its siblings the same way; the start node's own children are never
descended into.  The ascent stops at `root`, and every use in `ApplyStyle`
passes the start node's direct parent (or the area) as `root`.  The
conditions used here return `false` on `null`, and `find` returns `null`
when the sibling run is exhausted, so the model elides the final
`condition(null)` probe.

`findFwdStart l` models `Dom.find(l.head, cond, parent, true)` where `l` is
the head and its following siblings; `findFwdSibs l` models the sibling loop
itself over the following siblings `l`.  `findBackStart cs` models
`Dom.find(cs.last, cond, parent, true, 'previousSibling', 'lastChild')` on a
children list `cs` in document order (so the traversal runs right to left);
`findBackSibs l` models the backward sibling loop over the preceding
siblings `l`, nearest first.
-/

mutual
def findFwdStart (cond : Option DNode → Bool) : List DNode → Option DNode
  | [] => none
  | s :: rest => if cond (some s) then some s else findFwdSibs cond rest

def findFwdDesc (cond : Option DNode → Bool) : DNode → Option DNode
  | .text _ => none
  | .elem _ _ _ cs => findFwdStart cond cs

def findFwdSibs (cond : Option DNode → Bool) : List DNode → Option DNode
  | [] => none
  | s :: rest =>
    if cond (some s) then some s
    else
      match findFwdDesc cond s with
      | some r => some r
      | none => findFwdSibs cond rest
end

mutual
def findBackStart (cond : Option DNode → Bool) : List DNode → Option DNode
  | [] => none
  | [c] => if cond (some c) then some c else none
  | c :: rest =>
    match findBackStart cond rest with
    | some r => some r
    | none =>
      if cond (some c) then some c
      else findBackDesc cond c

def findBackDesc (cond : Option DNode → Bool) : DNode → Option DNode
  | .text _ => none
  | .elem _ _ _ cs => findBackStart cond cs
end

def findBackSibs (cond : Option DNode → Bool) : List DNode → Option DNode
  | [] => none
  | s :: rest =>
    if cond (some s) then some s
    else
      match findBackDesc cond s with
      | some r => some r
      | none => findBackSibs cond rest

/-- Model of `ApplyStyle.isNormalNode`: not null, not an empty text node, not a
selection marker. -/
def isNormalNode : Option DNode → Bool
  | none => false
  | some e => !Dom.isEmptyTextNode e && !isMarkerNode e

/-- The external collaborators of the applicator (see the section comment). -/
structure Env where
  cssGet : DNode → String → Option String
  normalizeCssValue : String → String → String
  wrapUnwrapped : Loc → Loc

/-- Model of `ApplyStyle.elementHasSameStyle(elm, rules)`: `rules` is a plain object,
`elm` is not a `font` tag, is an HTML element, and for every rule the
computed value exists, is nonempty and equals the rule value
case-insensitively (rule values are strings in the model, hence never
void). -/
def elementHasSameStyle (env : Env) (rules : Option (List (String × String)))
    (elm : DNode) : Bool :=
  rules.isSome
  && !Dom.isTagB elm "font"
  && Dom.isElementB elm
  && (rules.getD []).all (fun pv =>
       match env.cssGet elm pv.1 with
       | none => false
       | some value =>
         !(value == "") && lowerStr pv.2 == lowerStr value)

/-- Model of `ApplyStyle.isSuitableElement(elm, strict)` (part_000, lines 257–276). -/
def isSuitableElement (ctx : JStyle) (env : Env) (elm : Option DNode)
    (strict : Bool) : Bool :=
  match elm with
  | none => false
  | some e =>
    let isDefault := ctx.element == ctx.defaultTag
    let elmHasSameStyle := elementHasSameStyle env ctx.rules e
    let elmIsSame := nodeNameLower e == ctx.element
    ((!isDefault || !strict) && elmIsSame)
    || (elmHasSameStyle && isNormalNode (some e))

/-- The applicator's WRAP/UNWRAP mode. -/
inductive JMode where
  | WRAP
  | UNWRAP
deriving Repr, DecidableEq

/-- Model of `css(elm, rule, '')`: remove the inline declaration. -/
def cssRemove (styles : List (String × String)) (rule : String) :
    List (String × String) :=
  styles.filter (fun pv => !(pv.1 == rule))

/-- Model of `css(elm, rule, value)`: set the inline declaration (the helper may
normalise the stored value; the stored form is irrelevant to the claims and
the raw value is kept). -/
def cssSet (styles : List (String × String)) (rule : String) (v : String) :
    List (String × String) :=
  styles.filter (fun pv => !(pv.1 == rule)) ++ [(rule, v)]

/-- The CSS-rule toggle loop of `ApplyStyle.toggleStyles` (part_000, lines
299–319): for each rule in order, if mode is already UNWRAP or the computed
value equals the normalised target value, clear the declaration and set mode
to UNWRAP if undetermined; otherwise set the declaration and set mode to WRAP
if undetermined.  The computed-style reader sees the element with its current
(already partially toggled) inline styles. -/
def toggleCssRules (env : Env) (tag : String) (marker : Bool) (cs : List DNode)
    (init : List (String × String) × Option JMode)
    (rules : List (String × String)) :
    List (String × String) × Option JMode :=
  rules.foldl (fun acc pv =>
    if acc.2 == some JMode.UNWRAP
        || env.cssGet (.elem tag acc.1 marker cs) pv.1
            == some (env.normalizeCssValue pv.1 pv.2) then
      (cssRemove acc.1 pv.1, if acc.2.isNone then some JMode.UNWRAP else acc.2)
    else
      (cssSet acc.1 pv.1 pv.2, if acc.2.isNone then some JMode.WRAP else acc.2))
    init

/-- Model of `ApplyStyle.toggleStyles(elm)` (part_000, lines 295–342): toggle the CSS
rules when the element's tag is the style's default tag, then unwrap the
element entirely when it has become a plain inline wrapper (no inline style
left, or a non-default tag) or is a block of the target tag; returns the node
list that replaces `elm` at its position, and the new mode.  Callers only
pass element nodes; a text node is returned unchanged. -/
def toggleStyles (ctx : JStyle) (env : Env) (mode : Option JMode) (elm : DNode) :
    List DNode × Option JMode :=
  match elm with
  | .text v => ([.text v], mode)
  | .elem tag styles0 marker cs =>
    let s1 :=
      match ctx.rules with
      | some rs =>
        if lowerStr tag == ctx.defaultTag then
          toggleCssRules env tag marker cs (styles0, mode) rs
        else (styles0, mode)
      | none => (styles0, mode)
    let elm1 : DNode := .elem tag s1.1 marker cs
    let isBlk := Dom.isBlockB elm1
    let isSuitableInline :=
      !isBlk && (s1.1.isEmpty || !(lowerStr tag == ctx.defaultTag))
    let isSuitableBlock :=
      !isSuitableInline && isBlk && (lowerStr tag == ctx.element)
    if isSuitableInline || isSuitableBlock then
      (cs, if s1.2.isNone then some JMode.UNWRAP else s1.2)
    else ([elm1], s1.2)

/-- Model of `ApplyStyle.checkSuitableParent(font)` (part_000, lines 122–139): when
the parent exists, no normal sibling precedes or follows the fragment, the
parent is suitable (non-strict), the parent is not the selection area, and
the parent is not a block (or the style is block-level), toggle the style on
the parent and report handled. -/
def checkSuitableParent (ctx : JStyle) (env : Env) (mode : Option JMode)
    (loc : Loc) : Option (DNode × Option JMode) :=
  match loc.frames with
  | [] => none
  | f :: rest =>
    if (findFwdSibs isNormalNode f.after).isNone
        && (findBackSibs isNormalNode f.before).isNone
        && isSuitableElement ctx env (some (plugFrame [loc.focus] f)) false
        && !rest.isEmpty
        && (!Dom.isBlockB (plugFrame [loc.focus] f) || ctx.elementIsBlock) then
      let r := toggleStyles ctx env mode (plugFrame [loc.focus] f)
      some (plugTree r.1 rest, r.2)
    else none

/-- Model of `ApplyStyle.checkSuitableChild(font)` (part_000, lines 148–162): when the
fragment's first child exists, has no normal sibling after it (it never has
one before it), and is suitable (non-strict), toggle the style on that child
and report handled. -/
def checkSuitableChild (ctx : JStyle) (env : Env) (mode : Option JMode)
    (loc : Loc) : Option (DNode × Option JMode) :=
  match childrenOf loc.focus with
  | [] => none
  | c :: rest =>
    if (findFwdSibs isNormalNode rest).isNone
        && (findBackSibs isNormalNode []).isNone
        && isSuitableElement ctx env (some c) false then
      let r := toggleStyles ctx env mode c
      some (plugTree [withChildren loc.focus (r.1 ++ rest)] loc.frames, r.2)
    else none

/-- Model of `Dom.up(node, condition, root)` (dom.ts, lines 628–652) on a
location.  The do-while loop tests `start` at the top of each iteration and
breaks at `start === root` before ascending, and its
`while (start && start !== root)` guard exits as soon as an ascent reaches
`root`, before the next iteration could test it — so the root ancestor is
never tested unless the walk starts at the root itself (the empty frame
case).  With one frame remaining the current node's parent is the area root:
the node is tested, then the walk exits.  Returns how many frames lie below
the first match (`0` = the focus itself). -/
def upSearch (cond : Option DNode → Bool) :
    DNode → List Frame → Nat → Option Nat
  | cur, [], k => if cond (some cur) then some k else none
  | cur, [_], k => if cond (some cur) then some k else none
  | cur, f :: rest, k =>
    if cond (some cur) then some k
    else upSearch cond (plugFrame [cur] f) rest (k + 1)

def upLoc (cond : Option DNode → Bool) (loc : Loc) : Option Nat :=
  upSearch cond loc.focus loc.frames 0

/-- Empty both sibling lists of a frame (the state of an ancestor level after
the two range extractions of `checkClosestWrapper` removed or cloned away all
siblings of the path). -/
def clearFrame (f : Frame) : Frame :=
  { f with before := [], after := [] }

/-- Model of `ApplyStyle.checkClosestWrapper(font)` (part_000, lines 171–225).
`Dom.closest(font, this.isSuitableElement, this.jodit.editor)` is `Dom.up`
with the suitability condition at default strictness.  For a block-level
style the wrapper is toggled in place.  Otherwise the wrapper is split
around the fragment with two ranges:

* `setStartBefore(wrapper) / setEndBefore(font)` extracts, per the DOM
  `extractContents` algorithm, a single fragment child: a shallow clone of
  the wrapper containing — level by level down the ancestor chain — each
  level's preceding siblings (fully contained, hence moved) around a shallow
  clone of the next level.  If the extracted text trims to empty (the
  fragment always has a first child here), the clone is unwrapped inside the
  fragment; the fragment is then inserted before the wrapper (skipped when
  the wrapper has no parent).
* `setStartAfter(font) / setEndAfter(wrapper)` does the mirror image on the
  following siblings, inserted after the wrapper via `Dom.after`.

Finally the style is toggled on the now-isolated wrapper.  When the wrapper
is the fragment itself (`Dom.up` matched the focus), both ranges are
collapsed, the fragments are empty, and only the toggle happens. -/
def checkClosestWrapper (ctx : JStyle) (env : Env) (mode : Option JMode)
    (loc : Loc) : Option (DNode × Option JMode) :=
  match upLoc (fun n => isSuitableElement ctx env n true) loc with
  | none => none
  | some k =>
    if ctx.elementIsBlock then
      let r := toggleStyles ctx env mode (plugTree [loc.focus] (loc.frames.take k))
      some (plugTree r.1 (loc.frames.drop k), r.2)
    else
      match loc.frames.take k with
      | [] =>
        let r := toggleStyles ctx env mode loc.focus
        some (plugTree r.1 loc.frames, r.2)
      | f0 :: fs =>
        let leftFrag := fs.foldl
          (fun c f => DNode.elem f.tag f.styles f.marker (f.before.reverse ++ [c]))
          (DNode.elem f0.tag f0.styles f0.marker f0.before.reverse)
        let rightFrag := fs.foldl
          (fun c f => DNode.elem f.tag f.styles f.marker ([c] ++ f.after))
          (DNode.elem f0.tag f0.styles f0.marker f0.after)
        let leftIns :=
          if trimEmpty (textContent leftFrag) then childrenOf leftFrag
          else [leftFrag]
        let rightIns :=
          if trimEmpty (textContent rightFrag) then childrenOf rightFrag
          else [rightFrag]
        let cleared := (f0 :: fs).map clearFrame
        let r := toggleStyles ctx env mode (plugTree [loc.focus] cleared)
        let outer :=
          match loc.frames.drop k with
          | [] => []
          | fk :: more =>
            { fk with before := leftIns.reverse ++ fk.before,
                      after := rightIns ++ fk.after } :: more
        some (plugTree r.1 outer, r.2)

/-!
### `ApplyStyle.unwrapChildren(font)` (part_000, lines 348–378)

The method runs `Dom.find(font.firstChild, cb, font, true)` with a callback
that always returns `false`, so the whole `find` walk runs to completion:
the first child is tested (but, as in every `find` run, its own subtree is
not descended into), then each following sibling is tested and descended.
The callback pushes every suitable node onto `needUnwrap` and records in
`firstElementSuit` the suitability of the *first* visited node only (the
final `condition(null)` probe cannot touch it because `font.firstChild` was
already visited).  Afterwards every collected node is unwrapped in document
order — each unwrap splices the node's children in place, so the combined
effect is the in-place flattening below — and the method returns
`Boolean(firstElementSuit)`.  It never assigns `this.mode`.

`unwStart` processes a visited-but-not-descended head and its sibling run;
`unwSibs` processes stepped-to siblings, whose subtrees were visited.
-/

mutual
def unwStart (suit : DNode → Bool) : List DNode → List DNode
  | [] => []
  | c :: rest => (if suit c then childrenOf c else [c]) ++ unwSibs suit rest

def unwNode (suit : DNode → Bool) : DNode → List DNode
  | .text v => if suit (.text v) then [] else [.text v]
  | .elem t st m cs =>
    if suit (.elem t st m cs) then unwStart suit cs
    else [DNode.elem t st m (unwStart suit cs)]

def unwSibs (suit : DNode → Bool) : List DNode → List DNode
  | [] => []
  | s :: rest => unwNode suit s ++ unwSibs suit rest
end

/-- Model of `ApplyStyle.unwrapChildren(font)`: returns the reported boolean and the
fragment with all visited suitable nodes unwrapped. -/
def unwrapChildren (ctx : JStyle) (env : Env) (focus : DNode) : Bool × DNode :=
  let suit : DNode → Bool := fun e => isSuitableElement ctx env (some e) true
  match childrenOf focus with
  | [] => (false, focus)
  | c :: rest => (suit c, withChildren focus (unwStart suit (c :: rest)))

/-- The condition `node => node && Dom.isBlock(node, win)` used by the
fallback-wrap step and `wrapUnwrappedText`. -/
def isBlockCond : Option DNode → Bool
  | none => false
  | some e => Dom.isBlockB e

/-- The tail of the fallback-wrap step (part_000, lines 101–112):
`Dom.replace(wrapper, this.style.element, this.jodit.createInside)` builds a
fresh element of the target tag, moves the wrapper's children into it and
substitutes it for the wrapper in its parent (when the wrapper is the area
root there is no parent: the children are moved out and the root keeps its
place, emptied); then `css(newWrapper, element === defaultTag ?
options.style || {} : {})` writes the style map onto the new wrapper.  `k` is
the wrapper's height above the focus. -/
def replaceWithNew (ctx : JStyle) (loc : Loc) (k : Nat) : DNode :=
  let wrapper := plugTree [loc.focus] (loc.frames.take k)
  let newStyles :=
    if ctx.element == ctx.defaultTag then
      (ctx.rules.getD []).foldl (fun st pv => cssSet st pv.1 pv.2) []
    else []
  let neww : DNode := .elem ctx.element newStyles false (childrenOf wrapper)
  match loc.frames.drop k with
  | [] => withChildren wrapper []
  | fk :: more => plugTree [neww] (fk :: more)

/-- Model of `ApplyStyle.applyToElement(font)` (part_000, lines 65–113): run the four
per-fragment steps in order — suitable parent, suitable first child, closest
suitable wrapper, unwrap suitable descendants — stopping at the first that
reports handled (`unwrapChildren`'s tree mutation persists even when it
reports `false`); otherwise set mode to WRAP if undetermined, do nothing
unless mode is WRAP, and fall back to wrapping: for a block-level style use
the nearest block ancestor (or the wrapper synthesized by
`wrapUnwrappedText`), else the fragment itself, replaced by a fresh element
of the target tag with the style map applied when the target tag is the
default tag.  Returns the new area tree and mode. -/
def applyToElement (ctx : JStyle) (env : Env) (loc : Loc)
    (mode : Option JMode) : DNode × Option JMode :=
  match checkSuitableParent ctx env mode loc with
  | some r => r
  | none =>
    match checkSuitableChild ctx env mode loc with
    | some r => r
    | none =>
      match checkClosestWrapper ctx env mode loc with
      | some r => r
      | none =>
        let u := unwrapChildren ctx env loc.focus
        let loc1 : Loc := { focus := u.2, frames := loc.frames }
        if u.1 then (plugLoc loc1, mode)
        else
          let mode1 := if mode.isNone then some JMode.WRAP else mode
          if !(mode1 == some JMode.WRAP) then (plugLoc loc1, mode1)
          else if ctx.elementIsBlock then
            match upLoc isBlockCond loc1 with
            | some k => (replaceWithNew ctx loc1 k, mode1)
            | none => (replaceWithNew ctx (env.wrapUnwrapped loc1) 0, mode1)
          else (replaceWithNew ctx loc1 0, mode1)

/-- The first four steps of `applyToElement` alone (the per-fragment
procedure with the fallback-wrap step cut off): used to state that under
UNWRAP mode the fallback-wrap step contributes nothing. -/
def applyChecksOnly (ctx : JStyle) (env : Env) (loc : Loc)
    (mode : Option JMode) : DNode × Option JMode :=
  match checkSuitableParent ctx env mode loc with
  | some r => r
  | none =>
    match checkSuitableChild ctx env mode loc with
    | some r => r
    | none =>
      match checkClosestWrapper ctx env mode loc with
      | some r => r
      | none =>
        let u := unwrapChildren ctx env loc.focus
        (plugLoc { focus := u.2, frames := loc.frames }, mode)

/-- One `apply()` pass over a multi-fragment selection:
`sel.wrapInTag(this.applyToElement)` (the selection manager's fragment
iteration, an external collaborator) feeds the per-fragment procedure one
fragment location per step; each step's location may depend arbitrarily on
the current tree. -/
def applyPass (ctx : JStyle) (env : Env) (st : DNode × Option JMode)
    (sels : List (DNode → Loc)) : DNode × Option JMode :=
  sels.foldl (fun acc sel => applyToElement ctx env (sel acc.1) acc.2) st

/-!
## C3 — the suitability predicate against the spec's wording
-/

/-- The claim's wording for branch (b) of the suitability test: "elm carries
every CSS property/value pair the style specifies (values compared
case-insensitively)".  Carrying a pair presupposes a specified CSS map and an
element with a computed style: a style that specifies no map has no pairs for
an element to carry, and only an element can carry one; carrying the pair
means the computed value exists, is nonempty, and equals the specified value
case-insensitively. -/
def carriesSpecifiedRules (ctx : JStyle) (env : Env) (e : DNode) : Bool :=
  match ctx.rules with
  | none => false
  | some rs =>
    Dom.isElementB e && rs.all (fun pv =>
      match env.cssGet e pv.1 with
      | none => false
      | some value =>
        !(value == "") && lowerStr pv.2 == lowerStr value)

/-- The suitability predicate as the claim words it: a non-null node is
suitable iff either (the target tag differs from the default tag, or strict
is false) and the node's lower-cased tag name equals the target tag; or the
node carries every specified CSS pair, is not a marker element — per the
spec's glossary the marker/anchor elements are the `font` anchors the
applicator inserts, alongside the selection manager's markers — and is not
an empty text node.  A null node is never suitable. -/
def claimSuitable (ctx : JStyle) (env : Env) (elm : Option DNode)
    (strict : Bool) : Bool :=
  match elm with
  | none => false
  | some e =>
    ((!(ctx.element == ctx.defaultTag) || !strict)
        && nodeNameLower e == ctx.element)
    || (carriesSpecifiedRules ctx env e
        && !(Dom.isTagB e "font" || isMarkerNode e)
        && !Dom.isEmptyTextNode e)

/-- C3: `isSuitableElement(elm, strict)` returns true if and only if the
claim's description holds: branch (a) is the exact boolean algebra
`(!isDefault || !strict) && elmIsSame`, and branch (b) is carrying every
specified CSS pair (case-insensitive values) while being neither a
marker/anchor element nor an empty text node; a null node gives false. -/
theorem ApplyStyle.isSuitableElement_spec (ctx : JStyle) (env : Env)
    (elm : Option DNode) (strict : Bool) :
    isSuitableElement ctx env elm strict = claimSuitable ctx env elm strict := by
  cases elm with
  | none => rfl
  | some e =>
    rw [isSuitableElement, claimSuitable]
    rcases hr : ctx.rules with _ | rs
    · simp [elementHasSameStyle, carriesSpecifiedRules, hr]
    · simp only [elementHasSameStyle, carriesSpecifiedRules, hr,
        Option.isSome_some, Option.getD_some, Bool.true_and, isNormalNode]
      generalize ((!(ctx.element == ctx.defaultTag) || !strict)
          && (nodeNameLower e == ctx.element)) = a
      generalize Dom.isTagB e "font" = F
      generalize Dom.isElementB e = E
      generalize (rs.all fun pv =>
        match env.cssGet e pv.1 with
        | none => false
        | some value => !(value == "") && lowerStr pv.2 == lowerStr value) = P
      generalize Dom.isEmptyTextNode e = T
      generalize isMarkerNode e = M
      revert a F E P T M
      decide

/-!
## C4 — the unwrap-suitable-descendants step
-/

/-- A bold-like style: target tag `strong`, default tag `span`, inline, no
CSS map, so an element is suitable exactly when its tag is `strong`. -/
def styleBoldLike : JStyle :=
  { element := "strong", defaultTag := "span", elementIsBlock := false,
    rules := none }

/-- A trivial environment: no computed styles, identity normalisation, and an
inert `wrapUnwrappedText`. -/
def envTrivial : Env :=
  { cssGet := fun _ _ => none, normalizeCssValue := fun _ v => v,
    wrapUnwrapped := fun loc => loc }

/-- A fragment whose first child (a text node) is not suitable while its
second child (a `strong` element) is. -/
def fontC4 : DNode :=
  .elem "font" [] false
    [.text (some "x"), .elem "strong" [] false [.text (some "y")]]

/-- C4 counterexample: on `fontC4` a suitable descendant exists (the `strong`
child — second conjunct) and is indeed unwrapped (the resulting tree in the
first conjunct), yet `unwrapChildren` reports `false`, so the remaining steps
are not stopped — refuting "it reports success whenever at least one suitable
descendant was found".  (The source of `unwrapChildren` also never assigns
`this.mode`, which is why the model's `unwrapChildren` has no mode input or
output at all.) -/
theorem ApplyStyle.unwrapChildren_counterexample :
    unwrapChildren styleBoldLike envTrivial fontC4 =
      (false, .elem "font" [] false [.text (some "x"), .text (some "y")])
    ∧ isSuitableElement styleBoldLike envTrivial
        (some (.elem "strong" [] false [.text (some "y")])) true = true :=
  ⟨rfl, rfl⟩

theorem textContentL_append (l1 l2 : List DNode) :
    textContentL (l1 ++ l2) = textContentL l1 ++ textContentL l2 := by
  induction l1 with
  | nil => simp [textContentL]
  | cons c cs ih =>
    rw [List.cons_append, textContentL, textContentL, ih, String.append_assoc]

theorem textContentL_singleton (n : DNode) : textContentL [n] = textContent n := by
  rw [textContentL, textContentL]
  exact String.append_empty _

/-!
Unwrapping the visited suitable nodes preserves the fragment's text content,
provided no text node is suitable (a text node can only be "suitable" for a
style whose target tag is the impossible `#text`).
-/
mutual
theorem unwStart_textContent (suit : DNode → Bool)
    (ht : ∀ v : Option String, suit (.text v) = false) :
    (l : List DNode) → textContentL (unwStart suit l) = textContentL l
  | [] => rfl
  | c :: rest => by
    rw [unwStart, textContentL_append, unwSibs_textContent suit ht rest,
      textContentL]
    congr 1
    cases c with
    | text v =>
      rw [ht v]
      simp only [Bool.false_eq_true, if_false]
      exact textContentL_singleton _
    | elem t st m cs =>
      by_cases hs : suit (.elem t st m cs)
      · rw [if_pos hs, textContent]
        rfl
      · rw [if_neg hs]
        exact textContentL_singleton _

theorem unwNode_textContent (suit : DNode → Bool)
    (ht : ∀ v : Option String, suit (.text v) = false) :
    (n : DNode) → textContentL (unwNode suit n) = textContent n
  | .text v => by
    rw [unwNode, ht v]
    simp only [Bool.false_eq_true, if_false]
    exact textContentL_singleton _
  | .elem t st m cs => by
    rw [unwNode]
    by_cases hs : suit (.elem t st m cs)
    · rw [if_pos hs, unwStart_textContent suit ht cs, textContent]
    · rw [if_neg hs, textContentL_singleton]
      show textContent (.elem t st m (unwStart suit cs)) =
        textContent (.elem t st m cs)
      rw [textContent, textContent, unwStart_textContent suit ht cs]

theorem unwSibs_textContent (suit : DNode → Bool)
    (ht : ∀ v : Option String, suit (.text v) = false) :
    (l : List DNode) → textContentL (unwSibs suit l) = textContentL l
  | [] => rfl
  | s :: rest => by
    rw [unwSibs, textContentL_append, unwNode_textContent suit ht s,
      unwSibs_textContent suit ht rest, textContentL]
end

/-- C4 as amended: `unwrapChildren` reports success exactly when the *first*
visited node — the fragment's first child — is suitable (`false` when there
is no first child), not whenever some suitable descendant was found; it
leaves the applicator's mode untouched (the source never assigns
`this.mode`, so the model's `unwrapChildren` does not mention the mode, and
`applyToElement` passes the mode through this step unchanged); and the
in-place unwrapping of the visited suitable nodes preserves the fragment's
text content whenever no text node is suitable. -/
theorem ApplyStyle.unwrapChildren_amended (ctx : JStyle) (env : Env)
    (focus : DNode) :
    ((unwrapChildren ctx env focus).1 =
      (match childrenOf focus with
       | [] => false
       | c :: _ => isSuitableElement ctx env (some c) true))
    ∧ ((∀ v : Option String, isSuitableElement ctx env (some (.text v)) true = false) →
        textContent (unwrapChildren ctx env focus).2 = textContent focus) := by
  constructor
  · rw [unwrapChildren]
    cases h : childrenOf focus with
    | nil => rfl
    | cons c rest => rfl
  · intro ht
    rw [unwrapChildren]
    cases focus with
    | text v => rfl
    | elem t st m cs =>
      cases cs with
      | nil => rfl
      | cons c rest =>
        show textContent (.elem t st m (unwStart _ (c :: rest))) =
          textContent (.elem t st m (c :: rest))
        rw [textContent, textContent,
          unwStart_textContent _ (fun v => ht v) (c :: rest)]

/-- Witness for the amended C4 at a concrete input: for the bold-like style
no text node is suitable, and the unwrapping on `fontC4` preserves the text
content `xy`. -/
theorem ApplyStyle.unwrapChildren_amended_witness :
    textContent (unwrapChildren styleBoldLike envTrivial fontC4).2 =
      textContent fontC4 :=
  (ApplyStyle.unwrapChildren_amended styleBoldLike envTrivial fontC4).2
    (fun _ => rfl)

/-!
## C1 — mode monotonicity of the apply pass

Every assignment to `this.mode` in the source is guarded by
`this.mode === undefined` (in `toggleStyles`) or `!this.mode` (in
`applyToElement`), so a mode that is already set is never overwritten.
-/

theorem toggleCssRules_mode (env : Env) (tag : String) (marker : Bool)
    (cs : List DNode) :
    ∀ (rules : List (String × String))
      (init : List (String × String) × Option JMode) (m : JMode),
      init.2 = some m →
      (toggleCssRules env tag marker cs init rules).2 = some m := by
  intro rules
  induction rules with
  | nil => intro init m h; exact h
  | cons pv rest ih =>
    intro init m h
    rw [toggleCssRules, List.foldl_cons]
    show (toggleCssRules env tag marker cs _ rest).2 = some m
    apply ih
    split
    · simp [h]
    · simp [h]

theorem toggleStyles_mode (ctx : JStyle) (env : Env) (elm : DNode) (m : JMode) :
    (toggleStyles ctx env (some m) elm).2 = some m := by
  cases elm with
  | text v => rfl
  | elem tag styles0 marker cs =>
    rw [toggleStyles]
    have hs1 : (match ctx.rules with
        | some rs =>
          if lowerStr tag == ctx.defaultTag then
            toggleCssRules env tag marker cs (styles0, some m) rs
          else (styles0, some m)
        | none =>
          (styles0, some m) : List (String × String) × Option JMode).2 =
        some m := by
      cases ctx.rules with
      | none => rfl
      | some rs =>
        show (if lowerStr tag == ctx.defaultTag then
            toggleCssRules env tag marker cs (styles0, some m) rs
          else (styles0, some m)).2 = some m
        split
        · exact toggleCssRules_mode env tag marker cs rs (styles0, some m) m rfl
        · rfl
    generalize hg : (match ctx.rules with
        | some rs =>
          if lowerStr tag == ctx.defaultTag then
            toggleCssRules env tag marker cs (styles0, some m) rs
          else (styles0, some m)
        | none =>
          (styles0, some m) : List (String × String) × Option JMode) = p
    rw [hg] at hs1
    split
    · simp [hs1]
    · exact hs1

theorem ite_some_none_eq {α : Type} {b : Bool} {X res : α}
    (h : (if b = true then some X else none) = some res) : res = X := by
  cases b
  · exact absurd h (by simp)
  · exact (Option.some.inj h).symm

theorem checkSuitableParent_mode (ctx : JStyle) (env : Env) (loc : Loc)
    (m : JMode) (res : DNode × Option JMode)
    (h : checkSuitableParent ctx env (some m) loc = some res) :
    res.2 = some m := by
  rw [checkSuitableParent] at h
  cases hf : loc.frames with
  | nil => rw [hf] at h; exact Option.noConfusion h
  | cons f rest =>
    rw [hf] at h
    rw [ite_some_none_eq h]
    exact toggleStyles_mode ctx env _ m

theorem checkSuitableChild_mode (ctx : JStyle) (env : Env) (loc : Loc)
    (m : JMode) (res : DNode × Option JMode)
    (h : checkSuitableChild ctx env (some m) loc = some res) :
    res.2 = some m := by
  rw [checkSuitableChild] at h
  cases hf : childrenOf loc.focus with
  | nil => rw [hf] at h; exact Option.noConfusion h
  | cons c rest =>
    rw [hf] at h
    rw [ite_some_none_eq h]
    exact toggleStyles_mode ctx env _ m

theorem checkClosestWrapper_mode (ctx : JStyle) (env : Env) (loc : Loc)
    (m : JMode) (res : DNode × Option JMode)
    (h : checkClosestWrapper ctx env (some m) loc = some res) :
    res.2 = some m := by
  rw [checkClosestWrapper] at h
  split at h
  · exact Option.noConfusion h
  · split at h
    · rw [← Option.some.inj h]
      exact toggleStyles_mode ctx env _ m
    · split at h
      · rw [← Option.some.inj h]
        exact toggleStyles_mode ctx env _ m
      · rw [← Option.some.inj h]
        exact toggleStyles_mode ctx env _ m

theorem applyToElement_mode (ctx : JStyle) (env : Env) (loc : Loc) (m : JMode) :
    (applyToElement ctx env loc (some m)).2 = some m := by
  rw [applyToElement]
  split
  · next r heq => exact checkSuitableParent_mode ctx env loc m r heq
  · split
    · next r heq => exact checkSuitableChild_mode ctx env loc m r heq
    · split
      · next r heq => exact checkClosestWrapper_mode ctx env loc m r heq
      · repeat' split
        all_goals first
        | rfl
        | simp_all
        all_goals repeat' split
        all_goals first
        | rfl
        | simp_all

theorem applyToElement_unwrap_skips (ctx : JStyle) (env : Env) (loc : Loc) :
    applyToElement ctx env loc (some JMode.UNWRAP) =
      applyChecksOnly ctx env loc (some JMode.UNWRAP) := by
  rw [applyToElement, applyChecksOnly]
  cases checkSuitableParent ctx env (some JMode.UNWRAP) loc with
  | some r => rfl
  | none =>
    cases checkSuitableChild ctx env (some JMode.UNWRAP) loc with
    | some r => rfl
    | none =>
      cases checkClosestWrapper ctx env (some JMode.UNWRAP) loc with
      | some r => rfl
      | none =>
        show (if (unwrapChildren ctx env loc.focus).1 = true
            then ((plugLoc { focus := (unwrapChildren ctx env loc.focus).2,
                             frames := loc.frames },
                   some JMode.UNWRAP) : DNode × Option JMode)
            else (plugLoc { focus := (unwrapChildren ctx env loc.focus).2,
                            frames := loc.frames },
                  some JMode.UNWRAP)) =
          (plugLoc { focus := (unwrapChildren ctx env loc.focus).2,
                     frames := loc.frames },
           some JMode.UNWRAP)
        exact ite_self _

theorem applyPass_mode (ctx : JStyle) (env : Env) :
    ∀ (sels : List (DNode → Loc)) (t : DNode) (m : JMode),
      (applyPass ctx env (t, some m) sels).2 = some m := by
  intro sels
  induction sels with
  | nil => intro t m; rfl
  | cons sel rest ih =>
    intro t m
    show (applyPass ctx env (applyToElement ctx env (sel t) (some m)) rest).2 = some m
    have h1 := applyToElement_mode ctx env (sel t) m
    have h2 : applyToElement ctx env (sel t) (some m) =
        ((applyToElement ctx env (sel t) (some m)).1, some m) :=
      congrArg (fun o => ((applyToElement ctx env (sel t) (some m)).1, o)) h1
    rw [h2]
    exact ih (applyToElement ctx env (sel t) (some m)).1 m

/-- C1: over a single `apply()` pass (the selection manager feeding the
per-fragment procedure one fragment location per step, each chosen
arbitrarily from the current tree), once the mode is set to WRAP or UNWRAP it
is never reassigned: a pass entered with mode `some m` still has mode
`some m` after any sequence of per-fragment steps, whatever the style, the
computed-style environment, the trees and the fragment locations.  In
particular, when the mode is UNWRAP the per-fragment procedure coincides with
its first four steps alone: the fallback-wrap step is skipped and wraps
nothing. -/
theorem ApplyStyle.mode_invariant (ctx : JStyle) (env : Env) :
    (∀ (sels : List (DNode → Loc)) (t : DNode) (m : JMode),
      (applyPass ctx env (t, some m) sels).2 = some m)
    ∧ (∀ loc : Loc,
      applyToElement ctx env loc (some JMode.UNWRAP) =
        applyChecksOnly ctx env loc (some JMode.UNWRAP)) :=
  ⟨fun sels t m => applyPass_mode ctx env sels t m,
   fun loc => applyToElement_unwrap_skips ctx env loc⟩

/-!
## C2 — splitting the closest suitable wrapper
-/

/-- The style of the concrete split scenario from the spec: target tag
`font` (which is also the default tag) with one color rule. -/
def styleFontColor : JStyle :=
  { element := "font", defaultTag := "font", elementIsBlock := false,
    rules := some [("color", "red")] }

/-- An environment whose computed-style reader reports `color: red` for every
node (so the enclosing `strong` carries the style's rule), with identity
normalisation and an inert `wrapUnwrappedText`. -/
def envRed : Env :=
  { cssGet := fun _ p => if p == "color" then some "red" else none,
    normalizeCssValue := fun _ v => v,
    wrapUnwrapped := fun loc => loc }

/-- The selected fragment `<font>sel</font>`. -/
def fontSel : DNode := .elem "font" [] false [.text (some "sel")]

/-- The frame of the enclosing `<strong>zxc<font>sel</font>dfdsf</strong>`. -/
def strongFrame : Frame :=
  { tag := "strong", styles := [], marker := false,
    before := [.text (some "zxc")], after := [.text (some "dfdsf")] }

/-- The frame of the editable area around the `strong`. -/
def areaFrame : Frame :=
  { tag := "div", styles := [], marker := false, before := [], after := [] }

/-- The frame of the `<span>zxc<font>sel</font>dfdsf</span>` level of the
nested depth-two scenario: a span around the fragment carrying the flanking
texts. -/
def spanFrame : Frame :=
  { tag := "span", styles := [], marker := false,
    before := [.text (some "zxc")], after := [.text (some "dfdsf")] }

/-- The frame of the outer `<strong>` wrapper of the nested scenario: the
span is its only child. -/
def strongOuterFrame : Frame :=
  { tag := "strong", styles := [], marker := false,
    before := [], after := [] }

/-- Plug a single node through a prefix of the frame stack: `plugNode n fs`
is the ancestor of `n` sitting `fs.length` levels up. -/
def plugNode : DNode → List Frame → DNode
  | n, [] => n
  | n, f :: fs => plugNode (plugFrame [n] f) fs

/-- No plug of `cur` through a proper prefix of the frame list satisfies
`cond`: `cur` itself and every strict ancestor strictly below the full plug
fail the test.  The full plug (the candidate wrapper) is left
unconstrained. -/
def properPlugsUnsuitable (cond : Option DNode → Bool) :
    DNode → List Frame → Bool
  | _, [] => true
  | cur, f :: fs =>
    !cond (some cur) && properPlugsUnsuitable cond (plugFrame [cur] f) fs

/-- Unfolding equation of `upSearch` for a frame list with at least two
entries: the parent of the current node is not the area root, so on a failed
test the walk ascends. -/
theorem upSearch_step (cond : Option DNode → Bool) (cur : DNode) (f : Frame)
    (l : List Frame) (k : Nat) (hl : l ≠ []) :
    upSearch cond cur (f :: l) k =
      if cond (some cur) then some k
      else upSearch cond (plugFrame [cur] f) l (k + 1) := by
  cases l with
  | nil => exact absurd rfl hl
  | cons a as => rfl

/-- Resolution of the upward walk: when every plug of `cur` strictly below
the full plug through `inner` fails the condition, the full plug satisfies
it, and at least one frame (`fk :: more`) remains above it — the wrapper is
strictly below the area root, the only place the bounded walk can report a
match — `upSearch` stops exactly `inner.length` levels up. -/
theorem upSearch_chain (cond : Option DNode → Bool) :
    ∀ (inner : List Frame) (cur : DNode) (fk : Frame) (more : List Frame)
      (k0 : Nat),
      properPlugsUnsuitable cond cur inner = true →
      cond (some (plugNode cur inner)) = true →
      upSearch cond cur (inner ++ fk :: more) k0 =
        some (k0 + inner.length) := by
  intro inner
  induction inner with
  | nil =>
    intro cur fk more k0 _ hsuit
    cases more with
    | nil =>
      show (if cond (some cur) = true then some k0 else none) = some (k0 + 0)
      rw [show cond (some cur) = true from hsuit]
      simp
    | cons a as =>
      show (if cond (some cur) = true then some k0
            else upSearch cond (plugFrame [cur] fk) (a :: as) (k0 + 1)) =
          some (k0 + 0)
      rw [show cond (some cur) = true from hsuit]
      simp
  | cons f rest ih =>
    intro cur fk more k0 hns hsuit
    have hns2 := hns
    rw [properPlugsUnsuitable] at hns2
    have hcur : cond (some cur) = false := by
      cases hc : cond (some cur) with
      | false => rfl
      | true => rw [hc] at hns2; simp at hns2
    have hrest :
        properPlugsUnsuitable cond (plugFrame [cur] f) rest = true := by
      cases hr : properPlugsUnsuitable cond (plugFrame [cur] f) rest with
      | true => rfl
      | false => rw [hr] at hns2; simp at hns2
    show upSearch cond cur (f :: (rest ++ fk :: more)) k0 =
        some (k0 + (rest.length + 1))
    rw [upSearch_step cond cur f (rest ++ fk :: more) k0 (by simp),
      if_neg (show ¬(cond (some cur) = true) by simp [hcur]),
      ih (plugFrame [cur] f) fk more (k0 + 1) hrest hsuit]
    congr 1
    omega

/-- The left extraction result described level by level, outermost frame
first: per the DOM `extractContents` algorithm each partially contained
ancestor contributes a shallow clone holding the moved siblings before the
path at that level and, as last child, the clone of the next level down; the
innermost level (the parent of the fragment) holds only its moved preceding
siblings, in document order. -/
def leftCloneChain : List Frame → DNode
  | [] => .text none
  | [f] => .elem f.tag f.styles f.marker f.before.reverse
  | f :: rest =>
    .elem f.tag f.styles f.marker (f.before.reverse ++ [leftCloneChain rest])

/-- The right extraction result, mirrored: each clone carries the clone of
the next level down first, then the moved siblings after the path at that
level. -/
def rightCloneChain : List Frame → DNode
  | [] => .text none
  | [f] => .elem f.tag f.styles f.marker f.after
  | f :: rest =>
    .elem f.tag f.styles f.marker (rightCloneChain rest :: f.after)

/-- Unfolding equation of `leftCloneChain` on a list with at least two
entries. -/
theorem leftCloneChain_cons (f : Frame) (l : List Frame) (hl : l ≠ []) :
    leftCloneChain (f :: l) =
      .elem f.tag f.styles f.marker (f.before.reverse ++ [leftCloneChain l]) := by
  cases l with
  | nil => exact absurd rfl hl
  | cons b bs => rfl

/-- Unfolding equation of `rightCloneChain` on a list with at least two
entries. -/
theorem rightCloneChain_cons (f : Frame) (l : List Frame) (hl : l ≠ []) :
    rightCloneChain (f :: l) =
      .elem f.tag f.styles f.marker (rightCloneChain l :: f.after) := by
  cases l with
  | nil => exact absurd rfl hl
  | cons b bs => rfl

/-- The left fold of `checkClosestWrapper` over the ancestor frames builds
exactly the left clone chain, outermost frame first. -/
theorem foldl_leftClone (fs : List Frame) (f0 : Frame) :
    List.foldl
      (fun c f => DNode.elem f.tag f.styles f.marker (f.before.reverse ++ [c]))
      (DNode.elem f0.tag f0.styles f0.marker f0.before.reverse) fs =
    leftCloneChain (fs.reverse ++ [f0]) := by
  induction fs using List.reverseRecOn with
  | nil => rfl
  | append_singleton l a ih =>
    rw [List.foldl_append, List.reverse_append]
    simp only [List.foldl_cons, List.foldl_nil, List.reverse_cons,
      List.reverse_nil, List.nil_append, List.singleton_append,
      List.cons_append]
    rw [leftCloneChain_cons a (l.reverse ++ [f0]) (by simp), ih]

/-- The two ways of writing the right-fold step function — prepending the
accumulated clone to the following siblings — are definitionally the
same. -/
theorem rightFoldStep_eq :
    (fun (c : DNode) (f : Frame) =>
      DNode.elem f.tag f.styles f.marker ([c] ++ f.after)) =
    (fun (c : DNode) (f : Frame) =>
      DNode.elem f.tag f.styles f.marker (c :: f.after)) := rfl

/-- The right fold of `checkClosestWrapper` over the ancestor frames builds
exactly the right clone chain, outermost frame first. -/
theorem foldl_rightClone (fs : List Frame) (f0 : Frame) :
    List.foldl
      (fun c f => DNode.elem f.tag f.styles f.marker ([c] ++ f.after))
      (DNode.elem f0.tag f0.styles f0.marker f0.after) fs =
    rightCloneChain (fs.reverse ++ [f0]) := by
  rw [rightFoldStep_eq]
  induction fs using List.reverseRecOn with
  | nil => rfl
  | append_singleton l a ih =>
    rw [List.foldl_append, List.reverse_append]
    simp only [List.foldl_cons, List.foldl_nil, List.reverse_cons,
      List.reverse_nil, List.nil_append, List.singleton_append,
      List.cons_append]
    rw [rightCloneChain_cons a (l.reverse ++ [f0]) (by simp), ih]

/-- C2: when the style is not block-level and the fragment has a nearest
suitable ancestor wrapper at any depth (the fragment and every strict
ancestor below the wrapper fail the suitability test, the wrapper passes
it) — necessarily strictly below the editable root, the only region the
bounded upward walk of `Dom.up` ever tests — `checkClosestWrapper` splits
that wrapper around the fragment: the content before and the content after
the fragment are extracted as clone chains of the partially contained
ancestor levels, each level keeping its moved siblings; each remainder is
re-inserted before (resp. after) the wrapper, still wrapped when its text
has non-whitespace content and unwrapped (its children spliced bare) when
its text trims to empty; the style is then toggled on the now-isolated
wrapper chain.  Concretely, for `<strong>zxc<font>sel</font>dfdsf</strong>`
inside the editable `<div>` with the `font` fragment selected and the
font/color style, the per-fragment procedure yields the enclosing `strong`
split into `<strong>zxc</strong>` and `<strong>dfdsf</strong>` flanking the
style-toggled middle, with mode set to UNWRAP; and at depth two, for
`<strong><span>zxc<font>sel</font>dfdsf</span></strong>` with a
strong-targeting style, both the `strong` and the `span` level are cloned on
each side, giving `<strong><span>zxc</span></strong>` and
`<strong><span>dfdsf</span></strong>` around the unwrapped middle. -/
theorem ApplyStyle.checkClosestWrapper_split :
    (∀ (ctx : JStyle) (env : Env) (mode : Option JMode) (focus : DNode)
        (f0 : Frame) (fs : List Frame) (fk : Frame) (more : List Frame),
      ctx.elementIsBlock = false →
      properPlugsUnsuitable (fun n => isSuitableElement ctx env n true)
        focus (f0 :: fs) = true →
      isSuitableElement ctx env (some (plugNode focus (f0 :: fs))) true
        = true →
      checkClosestWrapper ctx env mode
          { focus := focus, frames := (f0 :: fs) ++ fk :: more } =
        (let leftFrag := leftCloneChain ((f0 :: fs).reverse)
         let rightFrag := rightCloneChain ((f0 :: fs).reverse)
         let leftIns :=
           if trimEmpty (textContent leftFrag) then childrenOf leftFrag
           else [leftFrag]
         let rightIns :=
           if trimEmpty (textContent rightFrag) then childrenOf rightFrag
           else [rightFrag]
         let r := toggleStyles ctx env mode
           (plugTree [focus] ((f0 :: fs).map clearFrame))
         some (plugTree r.1
           ({ fk with before := leftIns.reverse ++ fk.before,
                      after := rightIns ++ fk.after } :: more), r.2)))
    ∧ applyToElement styleFontColor envRed
        { focus := fontSel, frames := [strongFrame, areaFrame] } none =
      (.elem "div" [] false
        [.elem "strong" [] false [.text (some "zxc")],
         fontSel,
         .elem "strong" [] false [.text (some "dfdsf")]],
       some JMode.UNWRAP)
    ∧ applyToElement styleBoldLike envTrivial
        { focus := fontSel, frames := [spanFrame, strongOuterFrame, areaFrame] }
        none =
      (.elem "div" [] false
        [.elem "strong" [] false [.elem "span" [] false [.text (some "zxc")]],
         .elem "span" [] false [fontSel],
         .elem "strong" [] false
           [.elem "span" [] false [.text (some "dfdsf")]]],
       some JMode.UNWRAP) := by
  refine ⟨?_, rfl, rfl⟩
  intro ctx env mode focus f0 fs fk more hb hns hsuit
  have hup : upLoc (fun n => isSuitableElement ctx env n true)
      { focus := focus, frames := (f0 :: fs) ++ fk :: more } =
      some (f0 :: fs).length := by
    rw [upLoc]
    show upSearch (fun n => isSuitableElement ctx env n true) focus
        ((f0 :: fs) ++ fk :: more) 0 = some (f0 :: fs).length
    rw [upSearch_chain (fun n => isSuitableElement ctx env n true)
      (f0 :: fs) focus fk more 0 hns hsuit]
    simp
  have h1 : checkClosestWrapper ctx env mode
      { focus := focus, frames := (f0 :: fs) ++ fk :: more } =
      (if ctx.elementIsBlock then
        let r := toggleStyles ctx env mode
          (plugTree [focus]
            (List.take (f0 :: fs).length ((f0 :: fs) ++ fk :: more)))
        some (plugTree r.1
          (List.drop (f0 :: fs).length ((f0 :: fs) ++ fk :: more)), r.2)
      else
        match List.take (f0 :: fs).length ((f0 :: fs) ++ fk :: more) with
        | [] =>
          let r := toggleStyles ctx env mode focus
          some (plugTree r.1 ((f0 :: fs) ++ fk :: more), r.2)
        | g0 :: gs =>
          let leftFrag := gs.foldl
            (fun c f =>
              DNode.elem f.tag f.styles f.marker (f.before.reverse ++ [c]))
            (DNode.elem g0.tag g0.styles g0.marker g0.before.reverse)
          let rightFrag := gs.foldl
            (fun c f => DNode.elem f.tag f.styles f.marker ([c] ++ f.after))
            (DNode.elem g0.tag g0.styles g0.marker g0.after)
          let leftIns :=
            if trimEmpty (textContent leftFrag) then childrenOf leftFrag
            else [leftFrag]
          let rightIns :=
            if trimEmpty (textContent rightFrag) then childrenOf rightFrag
            else [rightFrag]
          let cleared := (g0 :: gs).map clearFrame
          let r := toggleStyles ctx env mode (plugTree [focus] cleared)
          let outer :=
            match List.drop (f0 :: fs).length ((f0 :: fs) ++ fk :: more) with
            | [] => []
            | g1 :: gmore =>
              { g1 with before := leftIns.reverse ++ g1.before,
                        after := rightIns ++ g1.after } :: gmore
          some (plugTree r.1 outer, r.2)) := by
    rw [checkClosestWrapper, hup]
  rw [List.take_left, List.drop_left,
    if_neg (show ¬(ctx.elementIsBlock = true) by simp [hb])] at h1
  have h2 : checkClosestWrapper ctx env mode
      { focus := focus, frames := (f0 :: fs) ++ fk :: more } =
      (let leftFrag := fs.foldl
         (fun c f =>
           DNode.elem f.tag f.styles f.marker (f.before.reverse ++ [c]))
         (DNode.elem f0.tag f0.styles f0.marker f0.before.reverse)
       let rightFrag := fs.foldl
         (fun c f => DNode.elem f.tag f.styles f.marker ([c] ++ f.after))
         (DNode.elem f0.tag f0.styles f0.marker f0.after)
       let leftIns :=
         if trimEmpty (textContent leftFrag) then childrenOf leftFrag
         else [leftFrag]
       let rightIns :=
         if trimEmpty (textContent rightFrag) then childrenOf rightFrag
         else [rightFrag]
       let r := toggleStyles ctx env mode
         (plugTree [focus] ((f0 :: fs).map clearFrame))
       some (plugTree r.1
         ({ fk with before := leftIns.reverse ++ fk.before,
                    after := rightIns ++ fk.after } :: more), r.2)) :=
    h1.trans (by rfl)
  rw [foldl_leftClone fs f0, foldl_rightClone fs f0,
    ← List.reverse_cons] at h2
  exact h2

/-- Witness for C2 at the nested depth-two input
`<div><strong><span>zxc<font>sel</font>dfdsf</span></strong></div>` with a
strong-targeting style: the style is not block-level, neither the `font`
fragment nor the enclosing `span` is suitable while the outer `strong` is
(the nearest suitable wrapper, two levels up and strictly below the editable
`div`), and the split theorem applied there yields the two-level clone
chains `<strong><span>zxc</span></strong>` and
`<strong><span>dfdsf</span></strong>` flanking the unwrapped middle, with
mode UNWRAP. -/
theorem ApplyStyle.checkClosestWrapper_split_witness :
    styleBoldLike.elementIsBlock = false
    ∧ properPlugsUnsuitable
        (fun n => isSuitableElement styleBoldLike envTrivial n true)
        fontSel [spanFrame, strongOuterFrame] = true
    ∧ isSuitableElement styleBoldLike envTrivial
        (some (plugNode fontSel [spanFrame, strongOuterFrame])) true = true
    ∧ checkClosestWrapper styleBoldLike envTrivial none
        { focus := fontSel,
          frames := [spanFrame, strongOuterFrame] ++ [areaFrame] } =
      some (.elem "div" [] false
        [.elem "strong" [] false [.elem "span" [] false [.text (some "zxc")]],
         .elem "span" [] false [fontSel],
         .elem "strong" [] false
           [.elem "span" [] false [.text (some "dfdsf")]]],
       some JMode.UNWRAP) :=
  ⟨rfl, rfl, rfl,
   (ApplyStyle.checkClosestWrapper_split.1 styleBoldLike envTrivial none
      fontSel spanFrame [strongOuterFrame] areaFrame [] rfl rfl rfl).trans
     rfl⟩
